import Mathlib

/-!
Verification of the KCDC data-processing utilities (`KcdcData.h`).

The C++ source is shallowly embedded here: `double` arithmetic is modelled by
exact rational arithmetic over `ℚ` (with explicit `Int.floor` / truncation
where the source calls `floor()` or casts to an integer type), the unsigned
integer fields of a record by `ℕ`, and the stateful histogram/batch pipeline
of `ProcessEventStats` by explicit state passing.  The external random source
(`random()`) and the libnova coordinate transform (`ln_get_equ_from_hrz`) are
parameters of the embedding (an `Env`), since their code is not part of this
repository; everything else is translated line by line from the source.
-/

/-- Bin width of the sky histograms, from `static const double binSize = 0.5`. -/
def binSize : ℚ := 0.5

/-- Batch capacity, from `static const uint64_t eventSetSize = 100000`. -/
def eventSetSize : ℕ := 100000

/-- The glibc value of `RAND_MAX` (also the largest value `random()` returns),
used by the source in `(double)random()/(double)RAND_MAX`. -/
def randMax : ℕ := 2147483647

/-- Truncation toward zero, the semantics of a C cast of a `double` to an
integer type (used by `EnsureCorrectRange`) and of the integral part produced
by `modf` (used by `GetGst`). -/
def ctrunc (x : ℚ) : ℤ := if x < 0 then ⌈x⌉ else ⌊x⌋

/-- Embedding of `KcdcData::EnsureCorrectRange`:
`double tmp = (int)(alpha / 360); if (alpha < 0.0) tmp--; tmp *= 360.0;
return alpha - tmp;`. -/
def EnsureCorrectRange (alpha : ℚ) : ℚ :=
  let tmp : ℚ := (ctrunc (alpha / 360) : ℚ)
  let tmp : ℚ := if alpha < 0 then tmp - 1 else tmp
  alpha - tmp * 360

/-- Embedding of `KcdcData::Convert360To180`:
`if (alpha >= 180.) return alpha - 360.; return alpha;`. -/
def Convert360To180 (alpha : ℚ) : ℚ :=
  if 180 ≤ alpha then alpha - 360 else alpha

/-- A sky histogram: the counter grid of the source's `Array2D` (360 rows for
declination, 720 columns for right ascension), modelled as a total function on
index pairs so that an increment performed at an out-of-range index — an
out-of-bounds write on the C++ `valarray` — is still visible in the model. -/
abbrev Hist := ℕ × ℕ → ℕ

/-- A single `++nreal(i,j)` / `++nfake(i,j)` increment at a bin. -/
def bump (h : Hist) (b : ℕ × ℕ) : Hist :=
  fun c => if c = b then h c + 1 else h c

/-- Embedding of the real-histogram accumulation step (`ProcessEventStats`
lines 298–310): the accepted event's equatorial position `(dec, ra)` is
shifted (`ei.dec = dec + 90.0`, `ei.ra = ra + 180.0`), the bin indices are the
truncations `uint32_t(ei.dec/binSize)`, `uint32_t(ei.ra/binSize)` (equal to
the floor for the non-negative shifted values), and then `++nreal(decIdx,
raIdx)` is performed unconditionally. -/
def realStep (dec ra : ℚ) (nreal : Hist) : Hist :=
  bump nreal (Nat.floor ((dec + 90) / binSize), Nat.floor ((ra + 180) / binSize))

/-- The source's out-of-grid test `if (decIdx>359 || raIdx>719)` guarding the
`"Illegal index"` report (and nothing else) in the real-event path. -/
def illegalIndexFlag (dec ra : ℚ) : Bool :=
  decide (359 < Nat.floor ((dec + 90) / binSize)) ||
    decide (719 < Nat.floor ((ra + 180) / binSize))

/-- Embedding of the resampling index of `ProcessEventStats` line 323:
`uint64_t idx((double)eventSetSize*((double)random()/(double)RAND_MAX))`,
as a function of the value `r` returned by `random()`. -/
def sampleIdx (r : ℕ) : ℕ :=
  Nat.floor ((eventSetSize : ℚ) * ((r : ℚ) / (randMax : ℚ)))

/-- The per-event record buffered by `ProcessEventStats` (struct `EventInfo`);
`zenith` holds `inHrzPos.alt` and `dec`, `ra` hold the shifted positions, as
in the source. -/
structure EventInfo where
  e : ℚ := 0
  zenith : ℚ := 0
  azimuth : ℚ := 0
  jdate : ℚ := 0
  dec : ℚ := 0
  ra : ℚ := 0

/-- The external collaborators of `ProcessEventStats`: the stream of values
produced by the seeded `random()` generator (indexed by draw number) and the
libnova transform `ln_get_equ_from_hrz` for the fixed observer position,
`(alt, az, jd) ↦ (equPos.ra, equPos.dec)`. -/
structure Env where
  rand : ℕ → ℕ
  equFromHrz : ℚ → ℚ → ℚ → ℚ × ℚ

/-- One synthetic ("fake") event (`ProcessEventStats` lines 328–344): the
substituted epoch `jdate` is re-transformed with the reused direction, the
result is shifted exactly as a real event, and `++nfake` is performed. -/
def fakeBump (env : Env) (alt az jdate : ℚ) (nfake : Hist) : Hist :=
  let equ := env.equFromHrz alt az jdate
  let fakeRa := Convert360To180 equ.1 + 180
  let fakeDec := equ.2 + 90
  bump nfake (Nat.floor (fakeDec / binSize), Nat.floor (fakeRa / binSize))

/-- The inner loop `for (uint64_t i=0; i<20; ++i)` generating the 20 synthetic
events for one buffered event `ei`; `rng` is the number of `random()` draws
consumed before this loop starts. -/
def fakeForEvent (env : Env) (events : ℕ → EventInfo) (ei : EventInfo)
    (rng : ℕ) (nfake : Hist) : Hist :=
  (List.range 20).foldl
    (fun h i =>
      fakeBump env ei.zenith ei.azimuth
        (events (sampleIdx (env.rand (rng + i)))).jdate h)
    nfake

/-- The full-batch background generation (`ProcessEventStats` lines 318–347):
for every buffered event, 20 synthetic events are produced; the buffer is
modelled as a total function `ℕ → EventInfo` (a read beyond index
`eventSetSize - 1` models the out-of-bounds `events[idx]` access). -/
def generateFakes (env : Env) (events : ℕ → EventInfo) (rng : ℕ)
    (nfake : Hist) : Hist :=
  (List.range eventSetSize).foldl
    (fun h n => fakeForEvent env events (events n) (rng + 20 * n) h)
    nfake

/-- The mutable state of the `ProcessEventStats` loop: the batch counter
`eventCount`, the batch buffer `events`, the two histograms, and the number of
`random()` draws consumed so far. -/
structure ProcState where
  eventCount : ℕ
  events : ℕ → EventInfo
  nreal : Hist
  nfake : Hist
  rng : ℕ

/-- Processing of one accepted event (`ProcessEventStats` lines 288–348):
`++nreal` at the event's bin, `events[eventCount] = ei`, `++eventCount`, and —
only when `eventCount == eventSetSize` — the background generation followed by
the reset `eventCount = 0`. -/
def acceptStep (env : Env) (s : ProcState) (ei : EventInfo) : ProcState :=
  let nreal := bump s.nreal
    (Nat.floor (ei.dec / binSize), Nat.floor (ei.ra / binSize))
  let events := Function.update s.events s.eventCount ei
  let n := s.eventCount + 1
  if n = eventSetSize then
    { eventCount := 0, events := events, nreal := nreal,
      nfake := generateFakes env events s.rng s.nfake,
      rng := s.rng + 20 * eventSetSize }
  else
    { eventCount := n, events := events, nreal := nreal,
      nfake := s.nfake, rng := s.rng }

/-- Folding the loop from an arbitrary state over a list of accepted events. -/
def runFrom (env : Env) (s : ProcState) (es : List EventInfo) : ProcState :=
  es.foldl (acceptStep env) s

/-- The state at entry of the record loop: empty buffer (the `valarray`
default-constructs zeroed `EventInfo`s), zero histograms, no draws consumed. -/
def initState : ProcState :=
  { eventCount := 0, events := fun _ => {}, nreal := fun _ => 0,
    nfake := fun _ => 0, rng := 0 }

/-- Processing a whole stream of accepted events from the initial state. -/
def runAccepted (env : Env) (es : List EventInfo) : ProcState :=
  runFrom env initState es

/-- The exported fake-histogram value of a bin (`ProcessEventStats` line 365):
the raw count divided by 20 with `uint64_t` division, i.e. truncation. -/
def exportFake (nfake : Hist) (i j : ℕ) : ℕ := nfake (i, j) / 20

/-- The bin a synthetic event generated from the buffered event `e0` falls in
(`ProcessEventStats` lines 333–339): the reused direction and epoch are
re-transformed, shifted (`+90`, `Convert360To180` then `+180`), and binned. -/
def fakeBin (env : Env) (e0 : EventInfo) : ℕ × ℕ :=
  (Nat.floor (((env.equFromHrz e0.zenith e0.azimuth e0.jdate).2 + 90) / binSize),
    Nat.floor
      ((Convert360To180 (env.equFromHrz e0.zenith e0.azimuth e0.jdate).1 + 180) /
        binSize))

/-- Embedding of `KcdcData::GetJulianDate(ymd, hms, mmn)`.  Every `double`
intermediate is an exact rational; `hms / 10000` and `ymd / 10000` are the
`uint64_t` divisions of the source, and each `floor(...)` call is `Int.floor`.
Note that the source computes `minutes` as `(hms - hours*10000.0)/100.0`
without flooring, and `seconds` as the (exactly zero) remainder
`hms - hours*10000.0 - minutes*100.0` plus `mmn*1e-9`. -/
def GetJulianDate (ymd hms mmn : ℕ) : ℚ :=
  let years : ℚ := ((ymd / 10000 : ℕ) : ℚ)
  let months : ℚ := (⌊((ymd : ℚ) - years * 10000) / 100⌋ : ℚ)
  let days : ℚ := (ymd : ℚ) - years * 10000 - months * 100
  let years : ℚ := if months ≤ 2 then years - 1 else years
  let months : ℚ := if months ≤ 2 then months + 12 else months
  let hours : ℚ := ((hms / 10000 : ℕ) : ℚ)
  let minutes : ℚ := ((hms : ℚ) - hours * 10000) / 100
  let seconds : ℚ :=
    ((hms : ℚ) - hours * 10000 - minutes * 100) + (mmn : ℚ) * (1 / 1000000000)
  let days : ℚ := days + (hours + (minutes + seconds / 60) / 60) / 24
  let b : ℚ := (⌊years / 100⌋ : ℚ)
  let b : ℚ := 2 - b + (⌊b / 4⌋ : ℚ)
  (⌊(365.25 : ℚ) * (⌊years + 4716⌋ : ℚ)⌋ : ℚ) +
    (⌊306 * (months + 1) / 10⌋ : ℚ) + b + days - 1524.5

/-- Modelled from the spec: the standard Gregorian Julian-day value, with the
same date arithmetic as `GetJulianDate` but the fractional day derived from
the true hours/minutes/seconds digit fields of `HHMMSS`
(`(HH + (MM + SS/60)/60)/24` plus the sub-second fraction), the reference
against which claim C3 measures the code. -/
def julianDateStd (ymd hms mmn : ℕ) : ℚ :=
  let years : ℚ := ((ymd / 10000 : ℕ) : ℚ)
  let months : ℚ := (⌊((ymd : ℚ) - years * 10000) / 100⌋ : ℚ)
  let days : ℚ := (ymd : ℚ) - years * 10000 - months * 100
  let years : ℚ := if months ≤ 2 then years - 1 else years
  let months : ℚ := if months ≤ 2 then months + 12 else months
  let hours : ℚ := ((hms / 10000 : ℕ) : ℚ)
  let minutes : ℚ := ((hms / 100 % 100 : ℕ) : ℚ)
  let seconds : ℚ := ((hms % 100 : ℕ) : ℚ) + (mmn : ℚ) * (1 / 1000000000)
  let days : ℚ := days + (hours + (minutes + seconds / 60) / 60) / 24
  let b : ℚ := (⌊years / 100⌋ : ℚ)
  let b : ℚ := 2 - b + (⌊b / 4⌋ : ℚ)
  (⌊(365.25 : ℚ) * (⌊years + 4716⌋ : ℚ)⌋ : ℚ) +
    (⌊306 * (months + 1) / 10⌋ : ℚ) + b + days - 1524.5

/-- The coefficient array `coeffs[4]` of `KcdcData::GetGst`. -/
def gstCoeffs : ℕ → ℚ
  | 0 => 24110.54841
  | 1 => 8640184.812866
  | 2 => 0.093104
  | _ => 0.0000062

/-- Embedding of `KcdcData::GetGst(julianDays)`: `modf(julianDays + 0.5,
&julian_day_part)` splits off the integral part (truncation toward zero, as
`modf` does), Julian centuries are `(julian_day_part - 2451545.5) / 36525`,
the polynomial is evaluated by the `while (i>0)` Horner loop (modelled by the
fold over the coefficient indices `2, 1, 0`), and the scaled day fraction is
added. -/
def GetGst (julianDays : ℚ) : ℚ :=
  let julian_day_part : ℚ := (ctrunc (julianDays + 0.5) : ℚ)
  let day_fraction : ℚ := (julianDays + 0.5) - julian_day_part
  let julian_centuries : ℚ := (julian_day_part - 2451545.5) / 36525
  let mean_gst0 : ℚ :=
    [2, 1, 0].foldl (fun m i => m * julian_centuries + gstCoeffs i)
      (gstCoeffs 3)
  mean_gst0 + day_fraction * 1.00273790935 * 86400

/-- Modelled from the claim (C9): the same computation written directly as the
claim states it — integer/fractional split of `julianDay + 0.5`, Julian
centuries from the integer part, the explicit 4-term Horner polynomial, plus
`fractional_part × 1.00273790935 × 86400`. -/
def gstClaimed (julianDay : ℚ) : ℚ :=
  let intPart : ℚ := (ctrunc (julianDay + 0.5) : ℚ)
  let fracPart : ℚ := (julianDay + 0.5) - intPart
  let t : ℚ := (intPart - 2451545.5) / 36525
  (((0.0000062 * t + 0.093104) * t + 8640184.812866) * t + 24110.54841) +
    fracPart * 1.00273790935 * 86400

/-- Gregorian leap-year test, used to state which `YYYYMMDD` dates are valid
calendar values (modelled from the spec's notion of a valid epoch). -/
def isLeap (y : ℕ) : Bool :=
  y % 4 == 0 && (y % 100 != 0 || y % 400 == 0)

/-- Number of days of month `m` of year `y` in the proleptic Gregorian
calendar. -/
def daysInMonth (y m : ℕ) : ℕ :=
  if m = 2 then (if isLeap y then 29 else 28)
  else if m = 4 ∨ m = 6 ∨ m = 9 ∨ m = 11 then 30 else 31

/-- Modelled from the spec: a valid `YYYYMMDD` integer date (month in 1..12,
day in 1..days-of-that-month). -/
def ValidDate (ymd : ℕ) : Prop :=
  1 ≤ ymd / 100 % 100 ∧ ymd / 100 % 100 ≤ 12 ∧ 1 ≤ ymd % 100 ∧
    ymd % 100 ≤ daysInMonth (ymd / 10000) (ymd / 100 % 100)

instance (ymd : ℕ) : Decidable (ValidDate ymd) := by
  unfold ValidDate; infer_instance

/-- Modelled from the spec: a valid `HHMMSS` integer time-of-day (hours below
24, minutes and seconds below 60). -/
def ValidTime (hms : ℕ) : Prop :=
  hms / 10000 < 24 ∧ hms / 100 % 100 < 60 ∧ hms % 100 < 60

instance (hms : ℕ) : Decidable (ValidTime hms) := by
  unfold ValidTime; infer_instance

/-- The month-shifted year of the Julian-day algorithm (the source's
`years--` when the month is January or February). -/
def shiftedYear (ymd : ℕ) : ℤ :=
  if ymd / 100 % 100 ≤ 2 then (ymd / 10000 : ℤ) - 1 else (ymd / 10000 : ℤ)

/-- The month-shifted month (the source's `months += 12` for January and
February). -/
def shiftedMonth (ymd : ℕ) : ℤ :=
  if ymd / 100 % 100 ≤ 2 then (ymd / 100 % 100 : ℤ) + 12
  else (ymd / 100 % 100 : ℤ)

/-- The integer value of `floor(365.25 * floor(years + 4716.0))` (Euclidean
division by a positive divisor is the floor). -/
def yearTermZ (Y : ℤ) : ℤ := 365 * (Y + 4716) + (Y + 4716) / 4

/-- The integer value of `floor(306 * (months + 1.0) / 10.)`. -/
def monthTermZ (M : ℤ) : ℤ := 306 * (M + 1) / 10

/-- The integer value of `b = 2 - floor(years/100) + floor(b/4)`. -/
def bTermZ (Y : ℤ) : ℤ := 2 - Y / 100 + Y / 100 / 4

/-- The year-dependent part of the Julian day number (year term plus
Gregorian correction). -/
def gTermZ (Y : ℤ) : ℤ := yearTermZ Y + bTermZ Y

/-- The integer skeleton of `GetJulianDate`: the whole date contribution, so
that `GetJulianDate ymd hms 0 = dateNumber ymd - 1524.5 + timeFracQ hms`. -/
def dateNumber (ymd : ℕ) : ℤ :=
  gTermZ (shiftedYear ymd) + monthTermZ (shiftedMonth ymd) + (ymd % 100 : ℕ)

/-- The fractional-day contribution of the time-of-day exactly as
`GetJulianDate` computes it (with `minutes = MM + SS/100` and `seconds = 0`):
`HH/24 + (HHMMSS mod 10000)/144000`. -/
def timeFracQ (hms : ℕ) : ℚ :=
  ((hms / 10000 : ℕ) : ℚ) / 24 + ((hms % 10000 : ℕ) : ℚ) / 144000

/-- The largest day number a valid date can carry in shifted month `M`
(months 3..14; shifted month 13 is January, 14 is February — at most 29). -/
def dmaxM (M : ℤ) : ℤ :=
  if M = 4 ∨ M = 6 ∨ M = 9 ∨ M = 11 then 30 else if M = 14 then 29 else 31

/-- Claim C4 counterexample: at the negative exact multiple `-360` the
normalization returns `360`, which is not `< 360` (and differs from
`a - 360·⌊a/360⌋ = 0`), refuting the claim that for every real `a` the result
lies in `[0, 360)` and equals `a - 360·⌊a/360⌋`. -/
theorem ensureCorrectRange_neg_multiple_cex :
    EnsureCorrectRange (-360) = 360 ∧ ¬ EnsureCorrectRange (-360) < 360 := by
  have hc : ctrunc ((-360 : ℚ) / 360) = -1 := by
    unfold ctrunc
    rw [if_pos (by norm_num : ((-360 : ℚ) / 360) < 0),
      show ((-360 : ℚ) / 360) = ((-1 : ℤ) : ℚ) by norm_num, Int.ceil_intCast]
  have h : EnsureCorrectRange (-360) = 360 := by
    unfold EnsureCorrectRange
    rw [hc]
    norm_num
  exact ⟨h, by rw [h]; norm_num⟩

/-- Claim C5 counterexample: the remapping sends `180` (which lies in
`[0, 360)`) to `-180`, so the claimed bound `-180 < result` fails. -/
theorem convert360To180_at_180_cex :
    Convert360To180 180 = -180 ∧ ¬ (-180 : ℚ) < Convert360To180 180 := by
  have h : Convert360To180 180 = -180 := by unfold Convert360To180; norm_num
  exact ⟨h, by rw [h]; norm_num⟩

/-- Claim C5 (amended): for every `a` in `[0, 360)` the remapping returns
`a - 360` when `a ≥ 180` and `a` otherwise, and the result lies in the
interval `[-180, 180)` (the claimed interval `(-180, 180]` is wrong: `-180` is
attained at `a = 180` and `180` is never attained). -/
theorem convert360To180_amended (a : ℚ) (h0 : 0 ≤ a) (h1 : a < 360) :
    Convert360To180 a = (if 180 ≤ a then a - 360 else a) ∧
      -180 ≤ Convert360To180 a ∧ Convert360To180 a < 180 := by
  refine ⟨rfl, ?_, ?_⟩ <;> unfold Convert360To180 <;> split <;> linarith

/-- Claim C5 witness: the amended theorem applied at `a = 200`. -/
theorem convert360To180_amended_witness :
    (0 : ℚ) ≤ 200 ∧ (200 : ℚ) < 360 ∧
      (Convert360To180 200 = (if (180 : ℚ) ≤ 200 then (200 : ℚ) - 360 else 200) ∧
        -180 ≤ Convert360To180 200 ∧ Convert360To180 200 < 180) :=
  ⟨by norm_num, by norm_num,
    convert360To180_amended 200 (by norm_num) (by norm_num)⟩

/-- Helper: on inputs that are not negative integer multiples of `360`, the
normalization computes exactly `a - 360·⌊a/360⌋`. -/
theorem ensureCorrectRange_eq_of_good (a : ℚ)
    (h : ¬(a < 0 ∧ ∃ k : ℤ, a = 360 * k)) :
    EnsureCorrectRange a = a - 360 * ⌊a / 360⌋ := by
  unfold EnsureCorrectRange ctrunc
  by_cases ha : a < 0
  · have hx : (⌊a / 360⌋ : ℚ) ≠ a / 360 := by
      intro hEq
      exact h ⟨ha, ⌊a / 360⌋, by
        field_simp at hEq
        linarith [hEq]⟩
    have hlt : (⌊a / 360⌋ : ℚ) < a / 360 :=
      lt_of_le_of_ne (Int.floor_le _) hx
    have hceil : ⌈a / 360⌉ = ⌊a / 360⌋ + 1 :=
      le_antisymm (Int.ceil_le_floor_add_one _)
        ((Int.add_one_le_ceil_iff).2 hlt)
    have hlt' : a / 360 < 0 := by
      have : (0 : ℚ) < 360 := by norm_num
      exact div_neg_of_neg_of_pos ha this
    simp only [if_pos hlt', if_pos ha, hceil]
    push_cast
    ring
  · have hge : 0 ≤ a := le_of_not_lt ha
    have hge' : ¬ a / 360 < 0 := by
      refine not_lt.2 (div_nonneg hge (by norm_num))
    simp only [if_neg hge', if_neg ha]
    ring

/-- Claim C4 (amended): for every real `a` that is not a negative integer
multiple of `360`, the normalization returns `a - 360·⌊a/360⌋`, lies in
`[0, 360)`, is idempotent, and is unchanged when `a` is replaced by
`a + 360k` for any integer `k` such that `a + 360k` also avoids the negative
multiples of `360`.  (At a negative integer multiple of `360` the function
instead returns `360`; see the counterexample.) -/
theorem ensureCorrectRange_amended (a : ℚ)
    (h : ¬(a < 0 ∧ ∃ k : ℤ, a = 360 * k)) :
    EnsureCorrectRange a = a - 360 * ⌊a / 360⌋ ∧
      0 ≤ EnsureCorrectRange a ∧ EnsureCorrectRange a < 360 ∧
      EnsureCorrectRange (EnsureCorrectRange a) = EnsureCorrectRange a ∧
      ∀ k : ℤ, ¬(a + 360 * k < 0 ∧ ∃ j : ℤ, a + 360 * k = 360 * j) →
        EnsureCorrectRange (a + 360 * k) = EnsureCorrectRange a := by
  have hEq := ensureCorrectRange_eq_of_good a h
  have hfl : (⌊a / 360⌋ : ℚ) ≤ a / 360 := Int.floor_le _
  have hfl' : a / 360 < ⌊a / 360⌋ + 1 := Int.lt_floor_add_one _
  have h0 : 0 ≤ EnsureCorrectRange a := by rw [hEq]; nlinarith
  have h360 : EnsureCorrectRange a < 360 := by rw [hEq]; nlinarith
  refine ⟨hEq, h0, h360, ?_, ?_⟩
  · have hgood : ¬(EnsureCorrectRange a < 0 ∧
        ∃ k : ℤ, EnsureCorrectRange a = 360 * k) := by
      intro hc; exact absurd hc.1 (not_lt.2 h0)
    rw [ensureCorrectRange_eq_of_good _ hgood]
    have : ⌊EnsureCorrectRange a / 360⌋ = 0 := by
      rw [Int.floor_eq_zero_iff]
      constructor
      · exact div_nonneg h0 (by norm_num)
      · rw [div_lt_one (by norm_num : (0:ℚ) < 360)]; exact h360
    rw [this]
    push_cast
    ring
  · intro k hk
    rw [ensureCorrectRange_eq_of_good _ hk, hEq]
    have hdiv : (a + 360 * k) / 360 = a / 360 + k := by
      field_simp
      ring
    rw [hdiv, Int.floor_add_int]
    push_cast
    ring

/-- Claim C4 witness: the amended theorem applied at `a = 100.5`. -/
theorem ensureCorrectRange_amended_witness :
    ¬((100.5 : ℚ) < 0 ∧ ∃ k : ℤ, (100.5 : ℚ) = 360 * k) ∧
      (EnsureCorrectRange 100.5 = 100.5 - 360 * ⌊(100.5 : ℚ) / 360⌋ ∧
        0 ≤ EnsureCorrectRange 100.5 ∧ EnsureCorrectRange 100.5 < 360 ∧
        EnsureCorrectRange (EnsureCorrectRange 100.5) =
          EnsureCorrectRange 100.5 ∧
        ∀ k : ℤ,
          ¬((100.5 : ℚ) + 360 * k < 0 ∧
            ∃ j : ℤ, (100.5 : ℚ) + 360 * k = 360 * j) →
          EnsureCorrectRange (100.5 + 360 * k) = EnsureCorrectRange 100.5) :=
  ⟨fun hc => absurd hc.1 (by norm_num),
    ensureCorrectRange_amended 100.5 (fun hc => absurd hc.1 (by norm_num))⟩

/-- Claim C2: at the largest possible return value of `random()` (namely
`RAND_MAX` itself) the resampling index is exactly `eventSetSize = 100000`,
one past the end of the batch buffer — the code reports `"illegal event idx"`
for it but still reads `events[idx]`, so the index is not always in
`[0, eventSetSize)`. -/
theorem sampleIdx_at_rand_max_out_of_bounds :
    sampleIdx randMax = eventSetSize := by
  unfold sampleIdx randMax eventSetSize
  norm_num

/-- Claim C1: for an accepted event at equatorial declination `90` (shifted
declination `180`, bin index `360 > 359`) the source flags the geometric
anomaly, yet the increment is still performed — the model histogram changes
at the out-of-grid cell `(360, 360)` — so the event is *not* dropped. -/
theorem realStep_illegal_index_still_increments :
    illegalIndexFlag 90 0 = true ∧
      realStep 90 0 (fun _ => 0) (360, 360) = 1 ∧ 359 < 360 := by
  refine ⟨?_, ?_, by norm_num⟩
  · unfold illegalIndexFlag binSize
    norm_num
  · unfold realStep binSize bump
    norm_num

/-- Claim C9: for every finite `julianDay`, `GetGst` computes exactly the
value described by the claim — it splits `julianDay + 0.5` into integer and
fractional parts, evaluates the 4-term polynomial with coefficients
`{24110.54841, 8640184.812866, 0.093104, 0.0000062}` in Horner form at the
Julian-century count of the integer part, and adds
`fractional_part × 1.00273790935 × 86400` seconds. -/
theorem getGst_matches_claimed_formula (julianDay : ℚ) :
    GetGst julianDay = gstClaimed julianDay := by
  unfold GetGst gstClaimed gstCoeffs
  simp only [List.foldl]

/-- Claim C3: the fractional day of `GetJulianDate` is not derived from the
true hours/minutes/seconds digits: at `ymd = 19980702`, `hms = 145647` the
source computes `minutes = 56.47` and `seconds = 0`, and its result falls
`47/216000` of a day (18.8 seconds, i.e. `0.4·SS` seconds) short of the
standard Gregorian Julian-day value, so the results do not agree to
sub-second precision. -/
theorem getJulianDate_seconds_misdecomposition :
    julianDateStd 19980702 145647 0 - GetJulianDate 19980702 145647 0 =
      47 / 216000 ∧ (1 : ℚ) < 86400 * (47 / 216000) := by
  constructor
  · unfold julianDateStd GetJulianDate
    norm_num
  · norm_num

/-- Helper: for every value of `random()` strictly below `RAND_MAX`, the
resampling index stays inside the batch buffer. -/
theorem sampleIdx_lt_of_lt (r : ℕ) (h : r < randMax) :
    sampleIdx r < eventSetSize := by
  unfold sampleIdx
  have h0 : (0 : ℚ) ≤ (eventSetSize : ℚ) * ((r : ℚ) / (randMax : ℚ)) := by
    positivity
  rw [Nat.floor_lt h0]
  have hr : (r : ℚ) < (randMax : ℚ) := by exact_mod_cast h
  have hq : ((r : ℚ) / (randMax : ℚ)) < 1 := by
    rw [div_lt_one (by unfold randMax; norm_num)]
    exact hr
  calc (eventSetSize : ℚ) * ((r : ℚ) / (randMax : ℚ))
      < (eventSetSize : ℚ) * 1 :=
        mul_lt_mul_of_pos_left hq (by unfold eventSetSize; norm_num)
    _ = (eventSetSize : ℚ) := mul_one _

/-- Helper: the inner 20-iteration loop over a buffer whose first
`eventSetSize` entries all equal `e0` adds `m` at the bin `fakeBin env e0`
and nothing elsewhere (stated for a loop of any length `m`). -/
theorem fakeLoop_identical (env : Env) (events : ℕ → EventInfo)
    (e0 : EventInfo) (hev : ∀ n, n < eventSetSize → events n = e0)
    (hrand : ∀ k, env.rand k < randMax) (rng : ℕ) :
    ∀ (m : ℕ) (h : Hist) (c : ℕ × ℕ),
      ((List.range m).foldl
        (fun h i =>
          fakeBump env e0.zenith e0.azimuth
            (events (sampleIdx (env.rand (rng + i)))).jdate h) h) c =
        h c + (if c = fakeBin env e0 then m else 0) := by
  intro m
  induction m with
  | zero => intro h c; simp
  | succ m ih =>
    intro h c
    rw [List.range_succ, List.foldl_append, List.foldl_cons, List.foldl_nil]
    have hidx : events (sampleIdx (env.rand (rng + m))) = e0 :=
      hev _ (sampleIdx_lt_of_lt _ (hrand _))
    rw [hidx]
    have hb : fakeBump env e0.zenith e0.azimuth e0.jdate
        ((List.range m).foldl
          (fun h i =>
            fakeBump env e0.zenith e0.azimuth
              (events (sampleIdx (env.rand (rng + i)))).jdate h) h) =
        bump ((List.range m).foldl
          (fun h i =>
            fakeBump env e0.zenith e0.azimuth
              (events (sampleIdx (env.rand (rng + i)))).jdate h) h)
          (fakeBin env e0) := rfl
    rw [hb]
    unfold bump
    have hX := ih h c
    by_cases hc : c = fakeBin env e0
    · simp only [if_pos hc, hX]
      omega
    · simp only [if_neg hc, hX]

/-- Helper: the outer loop over the first `m` buffered events of an
identical batch adds `20·m` at `fakeBin env e0` and nothing elsewhere. -/
theorem fakeOuter_identical (env : Env) (events : ℕ → EventInfo)
    (e0 : EventInfo) (hev : ∀ n, n < eventSetSize → events n = e0)
    (hrand : ∀ k, env.rand k < randMax) (rng : ℕ) :
    ∀ (m : ℕ), m ≤ eventSetSize → ∀ (h : Hist) (c : ℕ × ℕ),
      ((List.range m).foldl
        (fun h n => fakeForEvent env events (events n) (rng + 20 * n) h) h) c =
        h c + (if c = fakeBin env e0 then 20 * m else 0) := by
  intro m
  induction m with
  | zero => intro _ h c; simp
  | succ m ih =>
    intro hm h c
    rw [List.range_succ, List.foldl_append, List.foldl_cons, List.foldl_nil]
    have hm' : m < eventSetSize := hm
    rw [hev m hm']
    have hFE : ∀ (x : Hist) (c : ℕ × ℕ),
        fakeForEvent env events e0 (rng + 20 * m) x c =
          x c + (if c = fakeBin env e0 then 20 else 0) :=
      fun x c => fakeLoop_identical env events e0 hev hrand (rng + 20 * m) 20 x c
    have hout := ih (le_of_lt hm') h c
    rw [hFE, hout]
    by_cases hc : c = fakeBin env e0
    · simp only [if_pos hc]
      omega
    · simp only [if_neg hc]

/-- Claim C6: for a full batch of `eventSetSize` identical buffered events
(same direction, same epoch), processed with any random stream that stays
below `RAND_MAX`, the single bin the re-transformed synthetic position falls
in receives exactly `eventSetSize × 20` raw fake increments, every other bin
receives none, and the exported value of that bin (raw count divided by 20,
truncating) equals `eventSetSize`. -/
theorem generateFakes_identical_batch (env : Env) (events : ℕ → EventInfo)
    (e0 : EventInfo) (hev : ∀ n, n < eventSetSize → events n = e0)
    (hrand : ∀ k, env.rand k < randMax) :
    generateFakes env events 0 (fun _ => 0) (fakeBin env e0) =
        eventSetSize * 20 ∧
      (∀ c, c ≠ fakeBin env e0 →
        generateFakes env events 0 (fun _ => 0) c = 0) ∧
      exportFake (generateFakes env events 0 (fun _ => 0))
        (fakeBin env e0).1 (fakeBin env e0).2 = eventSetSize := by
  have houter := fakeOuter_identical env events e0 hev hrand 0 eventSetSize
    le_rfl (fun _ => 0)
  refine ⟨?_, ?_, ?_⟩
  · unfold generateFakes
    rw [houter]
    rw [if_pos rfl]
    omega
  · intro c hc
    unfold generateFakes
    rw [houter, if_neg hc]
  · unfold exportFake generateFakes
    rw [Prod.mk.eta, houter, if_pos rfl]
    unfold eventSetSize
    norm_num

/-- Claim C6 witness: the theorem applied to the all-default identical batch
with the constant-zero random stream and a transform sending everything to
the origin. -/
theorem generateFakes_identical_batch_witness :
    (∀ n, n < eventSetSize →
      (fun _ : ℕ => ({} : EventInfo)) n = ({} : EventInfo)) ∧
    (∀ k, (Env.mk (fun _ => 0) (fun _ _ _ => (0, 0))).rand k < randMax) ∧
    (generateFakes (Env.mk (fun _ => 0) (fun _ _ _ => (0, 0)))
          (fun _ => ({} : EventInfo)) 0 (fun _ => 0)
          (fakeBin (Env.mk (fun _ => 0) (fun _ _ _ => (0, 0))) {}) =
        eventSetSize * 20 ∧
      (∀ c, c ≠ fakeBin (Env.mk (fun _ => 0) (fun _ _ _ => (0, 0))) {} →
        generateFakes (Env.mk (fun _ => 0) (fun _ _ _ => (0, 0)))
          (fun _ => ({} : EventInfo)) 0 (fun _ => 0) c = 0) ∧
      exportFake
          (generateFakes (Env.mk (fun _ => 0) (fun _ _ _ => (0, 0)))
            (fun _ => ({} : EventInfo)) 0 (fun _ => 0))
          (fakeBin (Env.mk (fun _ => 0) (fun _ _ _ => (0, 0))) {}).1
          (fakeBin (Env.mk (fun _ => 0) (fun _ _ _ => (0, 0))) {}).2 =
        eventSetSize) :=
  ⟨fun _ _ => rfl,
    fun _ => by show (0 : ℕ) < randMax; unfold randMax; omega,
    generateFakes_identical_batch _ _ _ (fun _ _ => rfl)
      (fun _ => by show (0 : ℕ) < randMax; unfold randMax; omega)⟩

/-- Helper: unfolding one step of the record loop. -/
theorem runFrom_cons (env : Env) (s : ProcState) (e : EventInfo)
    (es : List EventInfo) :
    runFrom env s (e :: es) = runFrom env (acceptStep env s e) es := rfl

/-- Helper: the batch counter after one accepted event — incremented, or reset
to zero when the batch completes. -/
theorem acceptStep_eventCount (env : Env) (s : ProcState) (ei : EventInfo) :
    (acceptStep env s ei).eventCount =
      if s.eventCount + 1 = eventSetSize then 0 else s.eventCount + 1 := by
  simp only [acceptStep]
  by_cases h : s.eventCount + 1 = eventSetSize
  · rw [if_pos h, if_pos h]
  · rw [if_neg h, if_neg h]

/-- Helper: an accepted event that does not complete a batch leaves the fake
histogram untouched. -/
theorem acceptStep_nfake (env : Env) (s : ProcState) (ei : EventInfo)
    (h : s.eventCount + 1 ≠ eventSetSize) :
    (acceptStep env s ei).nfake = s.nfake := by
  simp only [acceptStep]
  rw [if_neg h]

/-- Helper: from any in-bounds counter state, the counter after a list of
accepted events is the event total modulo the batch capacity. -/
theorem runFrom_eventCount (env : Env) :
    ∀ (es : List EventInfo) (s : ProcState), s.eventCount < eventSetSize →
      (runFrom env s es).eventCount =
        (s.eventCount + es.length) % eventSetSize := by
  intro es
  induction es with
  | nil =>
    intro s hs
    show s.eventCount = (s.eventCount + 0) % eventSetSize
    rw [Nat.add_zero, Nat.mod_eq_of_lt hs]
  | cons e t ih =>
    intro s hs
    rw [runFrom_cons]
    have h1 : (acceptStep env s e).eventCount =
        (s.eventCount + 1) % eventSetSize := by
      rw [acceptStep_eventCount]
      unfold eventSetSize at hs ⊢
      split <;> omega
    have h2 : (acceptStep env s e).eventCount < eventSetSize := by
      rw [h1]
      exact Nat.mod_lt _ (by unfold eventSetSize; omega)
    rw [ih _ h2, h1, List.length_cons]
    unfold eventSetSize
    omega

/-- Claim C10: the batch buffer never overflows.  After any stream of
accepted events the counter equals the stream length modulo the capacity and
is therefore strictly below `eventSetSize = 100000`; since `acceptStep`
writes the next accepted event at index `eventCount`, every buffer write is
in bounds. -/
theorem buffer_write_index_in_bounds (env : Env) (es : List EventInfo) :
    (runAccepted env es).eventCount = es.length % eventSetSize ∧
      (runAccepted env es).eventCount < eventSetSize := by
  have h := runFrom_eventCount env es initState
    (by show 0 < eventSetSize; unfold eventSetSize; omega)
  have h0 : initState.eventCount = 0 := rfl
  rw [h0, Nat.zero_add] at h
  exact ⟨h, by rw [runAccepted, h]; exact Nat.mod_lt _ (by unfold eventSetSize; omega)⟩

/-- Helper: a run short enough never to complete a batch leaves the fake
histogram untouched. -/
theorem runFrom_nfake_small (env : Env) :
    ∀ (t : List EventInfo) (s : ProcState),
      s.eventCount + t.length < eventSetSize →
      (runFrom env s t).nfake = s.nfake := by
  intro t
  induction t with
  | nil => intro s _; rfl
  | cons e t ih =>
    intro s hs
    rw [List.length_cons] at hs
    have hne : s.eventCount + 1 ≠ eventSetSize := by omega
    have hec : (acceptStep env s e).eventCount = s.eventCount + 1 := by
      rw [acceptStep_eventCount, if_neg hne]
    rw [runFrom_cons, ih _ (by rw [hec]; omega), acceptStep_nfake env s e hne]

/-- Claim C7: when the number of accepted events is not a multiple of the
batch capacity, the trailing partial batch contributes nothing to the fake
histogram: the final fake histogram is exactly the one produced by the
longest prefix consisting of full batches (no flush happens at end of
stream). -/
theorem partial_batch_no_fake_contribution (env : Env) (es : List EventInfo)
    (h : ¬ eventSetSize ∣ es.length) :
    (runAccepted env es).nfake =
      (runAccepted env
        (es.take (eventSetSize * (es.length / eventSetSize)))).nfake := by
  set k := eventSetSize * (es.length / eventSetSize) with hk
  have hkle : k ≤ es.length := by rw [hk]; unfold eventSetSize; omega
  have hlen : (es.take k).length = k := by rw [List.length_take]; omega
  have hsplit : es.take k ++ es.drop k = es := List.take_append_drop _ _
  have hec : (runAccepted env (es.take k)).eventCount = 0 := by
    have h1 := runFrom_eventCount env (es.take k) initState
      (by show 0 < eventSetSize; unfold eventSetSize; omega)
    show (runFrom env initState (es.take k)).eventCount = 0
    rw [h1, hlen]
    show (0 + k) % eventSetSize = 0
    rw [hk]
    unfold eventSetSize
    omega
  have happ : runAccepted env es =
      runFrom env (runAccepted env (es.take k)) (es.drop k) := by
    rw [runAccepted, runAccepted, ← hsplit, runFrom, runFrom, runFrom,
      List.foldl_append, List.take_append_drop]
  rw [happ]
  apply runFrom_nfake_small
  rw [hec, List.length_drop, hk]
  unfold eventSetSize at *
  omega

/-- Claim C7 witness: the theorem applied to a one-event stream (whose length
1 is not a multiple of the batch capacity). -/
theorem partial_batch_no_fake_contribution_witness :
    ¬ eventSetSize ∣ ([({} : EventInfo)] : List EventInfo).length ∧
      (runAccepted (Env.mk (fun _ => 0) (fun _ _ _ => (0, 0)))
          [({} : EventInfo)]).nfake =
        (runAccepted (Env.mk (fun _ => 0) (fun _ _ _ => (0, 0)))
          (([({} : EventInfo)] : List EventInfo).take
            (eventSetSize *
              (([({} : EventInfo)] : List EventInfo).length /
                eventSetSize)))).nfake :=
  ⟨by rw [List.length_singleton]; unfold eventSetSize; omega,
    partial_batch_no_fake_contribution _ _
      (by rw [List.length_singleton]; unfold eventSetSize; omega)⟩

/-- Helper: stepping the shifted year advances the year-plus-correction part
by at least 365 (the Gregorian correction never loses more than the leap day
it cancels). -/
theorem gTermZ_step (Y : ℤ) : gTermZ Y + 365 ≤ gTermZ (Y + 1) := by
  unfold gTermZ yearTermZ bTermZ
  omega

/-- Helper: when calendar year `Y + 1` is a Gregorian leap year, stepping the
shifted year advances the year-plus-correction part by at least 366. -/
theorem gTermZ_step_leap (Y : ℤ) (h4 : (Y + 1) % 4 = 0)
    (h100 : (Y + 1) % 100 ≠ 0 ∨ (Y + 1) % 400 = 0) :
    gTermZ Y + 366 ≤ gTermZ (Y + 1) := by
  unfold gTermZ yearTermZ bTermZ
  omega

/-- Helper: the year-plus-correction part grows by at least 365 per year. -/
theorem gTermZ_ge (Y : ℤ) :
    ∀ Z : ℤ, Y ≤ Z → gTermZ Y + 365 * (Z - Y) ≤ gTermZ Z := by
  refine Int.le_induction ?_ ?_
  · simp
  · intro n hn ih
    have h1 := gTermZ_step n
    have h2 : 365 * (n + 1 - Y) = 365 * (n - Y) + 365 := by ring
    omega

/-- Helper: the month term is monotone. -/
theorem monthTermZ_mono (M N : ℤ) (h : M ≤ N) : monthTermZ M ≤ monthTermZ N := by
  unfold monthTermZ
  omega

/-- Helper: `floor(365.25 · n)` for an integer `n` is `365·n + n/4`. -/
theorem floor_qtr (n : ℤ) : ⌊(365.25 : ℚ) * ((n : ℤ) : ℚ)⌋ = 365 * n + n / 4 := by
  have h : (365.25 : ℚ) * ((n : ℤ) : ℚ) = ((1461 * n : ℤ) : ℚ) / ((4 : ℕ) : ℚ) := by
    push_cast
    ring
  rw [h, Rat.floor_intCast_div_natCast]
  omega


/-- Helper: `floor(306 · (M + 1) / 10)` for an integer `M`. -/
theorem floor_month (M : ℤ) :
    ⌊(306 : ℚ) * (((M : ℤ) : ℚ) + 1) / 10⌋ = 306 * (M + 1) / 10 := by
  have h : (306 : ℚ) * (((M : ℤ) : ℚ) + 1) / 10 =
      ((306 * (M + 1) : ℤ) : ℚ) / ((10 : ℕ) : ℚ) := by
    push_cast
    ring
  rw [h, Rat.floor_intCast_div_natCast]
  norm_cast

/-- Helper: `floor(a / 100)` for an integer `a`. -/
theorem floor_div100 (a : ℤ) : ⌊((a : ℤ) : ℚ) / 100⌋ = a / 100 := by
  rw [show (100 : ℚ) = ((100 : ℕ) : ℚ) by norm_num,
    Rat.floor_intCast_div_natCast]
  norm_cast

/-- Helper: `floor(a / 4)` for an integer `a`. -/
theorem floor_div4 (a : ℤ) : ⌊((a : ℤ) : ℚ) / 4⌋ = a / 4 := by
  rw [show (4 : ℚ) = ((4 : ℕ) : ℚ) by norm_num,
    Rat.floor_intCast_div_natCast]
  norm_cast

/-- Helper: `GetJulianDate` splits into its integer date skeleton plus the
time-of-day fraction. -/
theorem getJulianDate_split (ymd hms : ℕ) :
    GetJulianDate ymd hms 0 =
      ((dateNumber ymd : ℤ) : ℚ) - 1524.5 + timeFracQ hms := by
  simp only [GetJulianDate, dateNumber, gTermZ, yearTermZ, monthTermZ, bTermZ,
    shiftedYear, shiftedMonth, timeFracQ]
  set y := ymd / 10000 with hy0
  set m := ymd / 100 % 100 with hm0
  set d := ymd % 100 with hd0
  set q := ymd % 10000 with hq0
  set H := hms / 10000 with hH0
  set R := hms % 10000 with hR0
  have hy : (ymd : ℚ) - (y : ℚ) * 10000 = (q : ℚ) := by
    have h' : y * 10000 + q = ymd := by rw [hy0, hq0]; omega
    calc (ymd : ℚ) - (y : ℚ) * 10000
        = ((y * 10000 + q : ℕ) : ℚ) - (y : ℚ) * 10000 := by rw [h']
      _ = (q : ℚ) := by push_cast; ring
  have hmonths : ⌊(q : ℚ) / 100⌋ = ((m : ℕ) : ℤ) := by
    rw [show (100 : ℚ) = ((100 : ℕ) : ℚ) by norm_num,
      Rat.floor_natCast_div_natCast]
    omega
  rw [hy, hmonths]
  have hhms : (hms : ℚ) - (H : ℚ) * 10000 = (R : ℚ) := by
    have h' : H * 10000 + R = hms := by rw [hH0, hR0]; omega
    calc (hms : ℚ) - (H : ℚ) * 10000
        = ((H * 10000 + R : ℕ) : ℚ) - (H : ℚ) * 10000 := by rw [h']
      _ = (R : ℚ) := by push_cast; ring
  rw [hhms]
  have hdd : (q : ℚ) - (((m : ℕ) : ℤ) : ℚ) * 100 = (d : ℚ) := by
    have h' : q = m * 100 + d := by rw [hq0, hm0, hd0]; omega
    rw [h']
    push_cast
    ring
  by_cases hm2 : m ≤ 2
  · have hc : ((((m : ℕ) : ℤ)) : ℚ) ≤ 2 := by exact_mod_cast hm2
    simp only [if_pos hc, if_pos hm2]
    have hY : ((y : ℕ) : ℚ) - 1 + 4716 =
        ((((y : ℕ) : ℤ) - 1 + 4716 : ℤ) : ℚ) := by push_cast; ring
    rw [hY, Int.floor_intCast, floor_qtr]
    have hM : ((((m : ℕ) : ℤ)) : ℚ) + 12 =
        ((((m : ℕ) : ℤ) + 12 : ℤ) : ℚ) := by push_cast; ring
    rw [hM, floor_month]
    have hB : ((y : ℕ) : ℚ) - 1 = ((((y : ℕ) : ℤ) - 1 : ℤ) : ℚ) := by
      push_cast
      ring
    rw [hB, floor_div100, floor_div4, hdd]
    push_cast
    have ey : (ymd : ℤ) / 10000 = ((y : ℕ) : ℤ) := by omega
    have em : (ymd : ℤ) / 100 % 100 = ((m : ℕ) : ℤ) := by omega
    rw [ey, em]
    push_cast
    ring
  · have hc : ¬ ((((m : ℕ) : ℤ)) : ℚ) ≤ 2 := by
      intro hcon
      exact hm2 (by exact_mod_cast hcon)
    simp only [if_neg hc, if_neg hm2]
    have hY : ((y : ℕ) : ℚ) + 4716 =
        ((((y : ℕ) : ℤ) + 4716 : ℤ) : ℚ) := by push_cast; ring
    rw [hY, Int.floor_intCast, floor_qtr]
    rw [floor_month]
    have hB : ((y : ℕ) : ℚ) = ((((y : ℕ) : ℤ) : ℤ) : ℚ) := by push_cast; ring
    rw [hB, floor_div100, floor_div4, hdd]
    push_cast
    have ey : (ymd : ℤ) / 10000 = ((y : ℕ) : ℤ) := by omega
    have em : (ymd : ℤ) / 100 % 100 = ((m : ℕ) : ℤ) := by omega
    rw [ey, em]
    push_cast
    ring

/-- Helper: the time fraction is non-negative. -/
theorem timeFracQ_nonneg (hms : ℕ) : 0 ≤ timeFracQ hms := by
  unfold timeFracQ
  positivity

/-- Helper: for a valid time-of-day the time fraction is below one. -/
theorem timeFracQ_lt_one (hms : ℕ) (h : ValidTime hms) : timeFracQ hms < 1 := by
  obtain ⟨h1, h2, h3⟩ := h
  unfold timeFracQ
  have hR : hms % 10000 ≤ 5959 := by omega
  have hH : hms / 10000 ≤ 23 := by omega
  have hRq : ((hms % 10000 : ℕ) : ℚ) ≤ 5959 := by exact_mod_cast hR
  have hHq : ((hms / 10000 : ℕ) : ℚ) ≤ 23 := by exact_mod_cast hH
  linarith

/-- Helper: the time fraction is strictly monotone on valid times. -/
theorem timeFracQ_strictMono (hms1 hms2 : ℕ) (h1 : ValidTime hms1)
    (hlt : hms1 < hms2) : timeFracQ hms1 < timeFracQ hms2 := by
  obtain ⟨h11, h12, h13⟩ := h1
  unfold timeFracQ
  have key : 6000 * (hms1 / 10000) + hms1 % 10000 + 1 ≤
      6000 * (hms2 / 10000) + hms2 % 10000 := by omega
  have keyq : ((6000 * (hms1 / 10000) + hms1 % 10000 : ℕ) : ℚ) + 1 ≤
      ((6000 * (hms2 / 10000) + hms2 % 10000 : ℕ) : ℚ) := by exact_mod_cast key
  push_cast at keyq
  linarith

/-- Helper: the maximal day count of any shifted month is 31. -/
theorem dmaxM_le (M : ℤ) : dmaxM M ≤ 31 := by
  unfold dmaxM
  split
  · omega
  · split <;> omega

/-- Helper: the month term absorbs a full month of days: for shifted months
3..13, `monthTermZ M + dmaxM M ≤ monthTermZ (M + 1)`. -/
theorem monthTerm_gap (M : ℤ) (h3 : 3 ≤ M) (h13 : M ≤ 13) :
    monthTermZ M + dmaxM M ≤ monthTermZ (M + 1) := by
  interval_cases M <;> decide

/-- Helper: core strict monotonicity of the Julian-day date skeleton over
shifted calendar components, given the day-count bounds of a valid date. -/
theorem dateCore_strictMono (Y1 M1 D1 Y2 M2 D2 : ℤ)
    (hM1 : 3 ≤ M1) (hM1' : M1 ≤ 14) (hM2 : 3 ≤ M2) (hM2' : M2 ≤ 14)
    (hD1 : 1 ≤ D1) (hD2 : 1 ≤ D2) (hD1max : D1 ≤ dmaxM M1)
    (hFeb : M1 = 14 → D1 = 29 →
      (Y1 + 1) % 4 = 0 ∧ ((Y1 + 1) % 100 ≠ 0 ∨ (Y1 + 1) % 400 = 0))
    (hlex : Y1 < Y2 ∨ (Y1 = Y2 ∧ (M1 < M2 ∨ (M1 = M2 ∧ D1 < D2)))) :
    gTermZ Y1 + monthTermZ M1 + D1 < gTermZ Y2 + monthTermZ M2 + D2 := by
  have hmt3 : monthTermZ 3 = 122 := by decide
  have hmt13 : monthTermZ 13 = 428 := by decide
  have hmt14 : monthTermZ 14 = 459 := by decide
  rcases hlex with hY | ⟨hYeq, hM | ⟨hMeq, hD⟩⟩
  · -- strictly earlier shifted year
    have hmt2lo : monthTermZ 3 ≤ monthTermZ M2 := monthTermZ_mono _ _ hM2
    rcases eq_or_lt_of_le (by omega : Y1 + 1 ≤ Y2) with hY2 | hY2
    · -- adjacent shifted years
      by_cases hFC : M1 = 14 ∧ D1 = 29
      · obtain ⟨hM14, hD29⟩ := hFC
        have hleap := hFeb hM14 hD29
        have hstep := gTermZ_step_leap Y1 hleap.1 hleap.2
        rw [← hY2] at *
        have hmt1 : monthTermZ M1 = 459 := by rw [hM14]; exact hmt14
        omega
      · have hstep := gTermZ_step Y1
        rw [← hY2] at *
        have hub : monthTermZ M1 + D1 ≤ 487 := by
          by_cases hM14 : M1 = 14
          · have hD28 : D1 ≤ 28 := by
              have hdm : dmaxM M1 = 29 := by rw [hM14]; decide
              have : ¬ D1 = 29 := fun hc => hFC ⟨hM14, hc⟩
              omega
            have hmt1 : monthTermZ M1 = 459 := by rw [hM14]; exact hmt14
            omega
          · have hM13 : M1 ≤ 13 := by omega
            have hmt1 : monthTermZ M1 ≤ monthTermZ 13 := monthTermZ_mono _ _ hM13
            have hdm := dmaxM_le M1
            omega
        omega
    · -- gap of at least two shifted years
      have hge := gTermZ_ge Y1 Y2 (by omega)
      have h730 : 730 ≤ 365 * (Y2 - Y1) := by omega
      have hmt1hi : monthTermZ M1 ≤ monthTermZ 14 := monthTermZ_mono _ _ hM1'
      have hdm := dmaxM_le M1
      omega
  · -- same shifted year, strictly earlier shifted month
    subst hYeq
    have hgap : monthTermZ M1 + dmaxM M1 ≤ monthTermZ (M1 + 1) :=
      monthTerm_gap M1 hM1 (by omega)
    have hmono : monthTermZ (M1 + 1) ≤ monthTermZ M2 :=
      monthTermZ_mono _ _ (by omega)
    omega
  · -- same shifted year and month, strictly earlier day
    subst hYeq
    subst hMeq
    omega

/-- Helper: the shifted components of a valid date satisfy the bounds and the
February leap condition that the core monotonicity lemma needs. -/
theorem validParts_facts (y m d : ℕ) (ha : 1 ≤ m) (hb : m ≤ 12) (hc : 1 ≤ d)
    (hd : d ≤ daysInMonth y m) :
    3 ≤ (if m ≤ 2 then (m : ℤ) + 12 else (m : ℤ)) ∧
      (if m ≤ 2 then (m : ℤ) + 12 else (m : ℤ)) ≤ 14 ∧
      (d : ℤ) ≤ dmaxM (if m ≤ 2 then (m : ℤ) + 12 else (m : ℤ)) ∧
      ((if m ≤ 2 then (m : ℤ) + 12 else (m : ℤ)) = 14 → (d : ℤ) = 29 →
        ((if m ≤ 2 then (y : ℤ) - 1 else (y : ℤ)) + 1) % 4 = 0 ∧
          (((if m ≤ 2 then (y : ℤ) - 1 else (y : ℤ)) + 1) % 100 ≠ 0 ∨
            ((if m ≤ 2 then (y : ℤ) - 1 else (y : ℤ)) + 1) % 400 = 0)) := by
  have hleap_iff : (isLeap y = true) ↔
      (y % 4 = 0 ∧ (y % 100 ≠ 0 ∨ y % 400 = 0)) := by
    simp [isLeap]
  interval_cases m
  · -- m = 1 (shifted month 13)
    norm_num [daysInMonth] at hd
    norm_num [dmaxM]
    omega
  · -- m = 2 (shifted month 14): February
    norm_num [daysInMonth] at hd
    simp only [if_pos (show (2 : ℕ) ≤ 2 by omega)]
    rw [show ((2 : ℕ) : ℤ) + 12 = 14 by norm_num,
      show dmaxM 14 = 29 by decide]
    refine ⟨by norm_num, by norm_num, ?_, fun _ h29 => ?_⟩
    · by_cases hL : isLeap y = true
      · rw [if_pos hL] at hd
        omega
      · rw [if_neg hL] at hd
        omega
    · by_cases hL : isLeap y = true
      · have hy := hleap_iff.1 hL
        refine ⟨by omega, ?_⟩
        rcases hy.2 with h | h
        · left; omega
        · right; omega
      · rw [if_neg hL] at hd
        exact absurd h29 (by omega)
  all_goals
    norm_num [daysInMonth] at hd
    norm_num [dmaxM]
    omega

/-- Helper: the date skeleton is strictly monotone on valid `YYYYMMDD`
dates in numeric (= calendar) order. -/
theorem dateNumber_strictMono (ymd1 ymd2 : ℕ) (h1 : ValidDate ymd1)
    (h2 : ValidDate ymd2) (hlt : ymd1 < ymd2) :
    dateNumber ymd1 < dateNumber ymd2 := by
  obtain ⟨h1a, h1b, h1c, h1d⟩ := h1
  obtain ⟨h2a, h2b, h2c, h2d⟩ := h2
  obtain ⟨fa1, fb1, fc1, fd1⟩ := validParts_facts (ymd1 / 10000)
    (ymd1 / 100 % 100) (ymd1 % 100) h1a h1b h1c h1d
  obtain ⟨fa2, fb2, fc2, fd2⟩ := validParts_facts (ymd2 / 10000)
    (ymd2 / 100 % 100) (ymd2 % 100) h2a h2b h2c h2d
  have hlex : shiftedYear ymd1 < shiftedYear ymd2 ∨
      (shiftedYear ymd1 = shiftedYear ymd2 ∧
        (shiftedMonth ymd1 < shiftedMonth ymd2 ∨
          (shiftedMonth ymd1 = shiftedMonth ymd2 ∧
            ((ymd1 % 100 : ℕ) : ℤ) < ((ymd2 % 100 : ℕ) : ℤ)))) := by
    unfold shiftedYear shiftedMonth
    by_cases ha : ymd1 / 100 % 100 ≤ 2 <;> by_cases hb : ymd2 / 100 % 100 ≤ 2
    · simp only [if_pos ha, if_pos hb]; omega
    · simp only [if_pos ha, if_neg hb]; omega
    · simp only [if_neg ha, if_pos hb]; omega
    · simp only [if_neg ha, if_neg hb]; omega
  unfold dateNumber
  exact dateCore_strictMono (shiftedYear ymd1) (shiftedMonth ymd1) _
    (shiftedYear ymd2) (shiftedMonth ymd2) _ fa1 fb1 fa2 fb2
    (by exact_mod_cast h1c) (by exact_mod_cast h2c) fc1 fd1 hlex

/-- Claim C8: the Julian-day function is strictly monotone in calendar order:
for valid dates and times, an earlier `(date, time)` epoch always yields a
strictly smaller `GetJulianDate` value. -/
theorem getJulianDate_strict_mono (ymd1 hms1 ymd2 hms2 : ℕ)
    (hd1 : ValidDate ymd1) (ht1 : ValidTime hms1)
    (hd2 : ValidDate ymd2) (ht2 : ValidTime hms2)
    (hlt : ymd1 < ymd2 ∨ (ymd1 = ymd2 ∧ hms1 < hms2)) :
    GetJulianDate ymd1 hms1 0 < GetJulianDate ymd2 hms2 0 := by
  rw [getJulianDate_split, getJulianDate_split]
  rcases hlt with hlt | ⟨heq, hlt⟩
  · have hN : dateNumber ymd1 < dateNumber ymd2 :=
      dateNumber_strictMono _ _ hd1 hd2 hlt
    have hN' : ((dateNumber ymd1 : ℤ) : ℚ) + 1 ≤ ((dateNumber ymd2 : ℤ) : ℚ) := by
      exact_mod_cast hN
    have hf1 := timeFracQ_lt_one hms1 ht1
    have hf2 := timeFracQ_nonneg hms2
    linarith
  · subst heq
    have hmono := timeFracQ_strictMono hms1 hms2 ht1 hlt
    linarith

/-- Claim C8 witness: the theorem applied to the consecutive valid epochs
`(19980702, 145647)` and `(19980703, 000000)`. -/
theorem getJulianDate_strict_mono_witness :
    ValidDate 19980702 ∧ ValidTime 145647 ∧ ValidDate 19980703 ∧
      ValidTime 0 ∧
      (19980702 < 19980703 ∨ (19980702 = 19980703 ∧ 145647 < 0)) ∧
      GetJulianDate 19980702 145647 0 < GetJulianDate 19980703 0 0 :=
  ⟨by decide, by decide, by decide, by decide, Or.inl (by decide),
    getJulianDate_strict_mono _ _ _ _ (by decide) (by decide) (by decide)
      (by decide) (Or.inl (by decide))⟩
